import Mathlib

/-!
Verification of the Streaming Response Assembler and Rubric Scoring Engine.

The definitions below are a shallow embedding of the relevant code:

* `extractLoop` / `extractCompleteSegments` embed
  `AgentManager._extract_complete_segments` (app/services/agent_manager.py,
  lines 518-544): a forward index scan over the buffer that cuts a segment at
  every boundary character (`. ! ? , ; : \n`) that is immediately followed by
  a whitespace character (space, newline, tab) or is the final character of
  the buffer.
* `remLoop` / `getRemainingBuffer` embed
  `AgentManager._get_remaining_buffer` (lines 546-564): a backward index scan
  returning the text after the last such boundary.
* `streamLoop` embeds the frame-emitting event loop of
  `AgentManager.chat_with_agent_stream` (lines 374-498).  Queue items model
  exactly what the background thread enqueues: stream events, the `'done'`
  sentinel, and the `'error'` sentinel.  Python strings are modelled as
  `List Char`; the SSE JSON objects `{"t": "c"|"d"|"e", ...}` are modelled by
  the `OutputFrame` inductive.
* `score_interview` embeds the response-processing part of the
  `/interviews/score` endpoint (app/routers/interview_router.py, lines
  294-325): the collaborator response is either not valid JSON, or a JSON
  object whose present fields are well-typed (`ScoreData`, with `Option`
  marking fields that may be absent).  Errors are the `HTTPException`s the
  endpoint raises, modelled by status code and detail prefix.
-/

/-! ## Streaming Response Assembler -/

/-- Embeds `MAX_BUFFER_SIZE` from app/core/constants.py line 15. -/
def MAX_BUFFER_SIZE : Nat := 30

/-- Membership in the Python string literal of boundary characters
`'.!?,;:\n'` used at agent_manager.py lines 535 and 558. -/
def isBoundaryChar (c : Char) : Bool :=
  c = '.' || c = '!' || c = '?' || c = ',' || c = ';' || c = ':' || c = '\n'

/-- Membership in the Python string literal `' \n\t'` used at
agent_manager.py lines 537 and 559. -/
def isSegSpaceChar (c : Char) : Bool :=
  c = ' ' || c = '\n' || c = '\t'

/-- Forward scan of `_extract_complete_segments` (lines 530-544).  The first
list argument is the suffix `buffer[i:]` still to scan (so its head is
`buffer[i]` and the head of its tail is `buffer[i + 1]`; an empty tail means
`i + 1 >= len(buffer)`).  `i` is the loop index, `lastIdx` the Python
`last_idx`, `segs` the accumulated segments.  `(b.take (i + 2)).drop lastIdx`
is the Python slice `buffer[last_idx:i + 2]`. -/
def extractLoop (b : List Char) : List Char → Nat → Nat → List (List Char) →
    List (List Char)
  | [], _, _, segs => segs
  | c :: s, i, lastIdx, segs =>
    if isBoundaryChar c then
      match s with
      | d :: _ =>
        if isSegSpaceChar d then
          extractLoop b s (i + 1) (i + 2) (segs ++ [(b.take (i + 2)).drop lastIdx])
        else
          extractLoop b s (i + 1) lastIdx segs
      | [] => segs ++ [(b.take (i + 1)).drop lastIdx]
    else
      extractLoop b s (i + 1) lastIdx segs

/-- Embeds `AgentManager._extract_complete_segments`. -/
def extractCompleteSegments (b : List Char) : List (List Char) :=
  extractLoop b b 0 0 []

/-- Backward scan of `_get_remaining_buffer` (lines 556-564).  The argument
counts how many indices remain to examine: `remLoop b (k + 1)` examines index
`k` next, mirroring Python's `for i in range(len(buffer) - 1, -1, -1)`. -/
def remLoop (b : List Char) : Nat → List Char
  | 0 => b
  | k + 1 =>
    if h : k < b.length then
      if isBoundaryChar (b.get ⟨k, h⟩) then
        if h2 : k + 1 < b.length then
          if isSegSpaceChar (b.get ⟨k + 1, h2⟩) then b.drop (k + 2)
          else remLoop b k
        else []
      else remLoop b k
    else remLoop b k

/-- Embeds `AgentManager._get_remaining_buffer`. -/
def getRemainingBuffer (b : List Char) : List Char :=
  remLoop b b.length

/-- Python whitespace characters stripped by `str.strip()` (ASCII part);
used to model the truthiness test `buffer.strip()` at lines 382 and 478. -/
def pyWhitespace (c : Char) : Bool :=
  c = ' ' || c = '\t' || c = '\n' || c = '\r' || c = '\x0b' || c = '\x0c'

/-- Truthiness of `buffer.strip()`: true iff the buffer contains at least one
non-whitespace character. -/
def stripNonempty (b : List Char) : Bool :=
  b.any (fun c => !pyWhitespace c)

/-- The stream events the loop dispatches on (agent_manager.py lines
402-487): `thread.message.created`, `thread.message.delta` (with the
extracted text value), `thread.run.completed`, `thread.run.failed` (with the
constructed error message), and any other event type (logged and skipped). -/
inductive DeltaEvent where
  | messageCreated
  | contentDelta (text : List Char)
  | runCompleted
  | runFailed (msg : String)
  | otherEvent
deriving DecidableEq

/-- Items placed on `event_queue` by the background thread (lines 355-364):
`('event', e)`, `('done', None)`, `('error', msg)`. -/
inductive QueueItem where
  | event (e : DeltaEvent)
  | streamDone
  | streamError (msg : String)
deriving DecidableEq

/-- The SSE frames yielded by `chat_with_agent_stream`:
`{"t": "s", "tid": ...}`, `{"t": "c", "d": text, "tid": ...}`,
`{"t": "d", "tid": ...}`, `{"t": "e", "e": msg, "tid": ...}`. -/
inductive OutputFrame where
  | threadStarted (tid : String)
  | chunk (text : List Char)
  | done
  | errorFrame (msg : String)
deriving DecidableEq

/-- Embeds the `while True` event loop of `chat_with_agent_stream` (lines
374-498), processing the finite list of queue items the request receives.
`bufferBySentence` is the `buffer_by_sentence` flag, `buffer` the running
segmentation buffer (initially `""`). -/
def streamLoop (bufferBySentence : Bool) (buffer : List Char) :
    List QueueItem → List OutputFrame
  | [] => []
  | item :: rest =>
    match item with
    | .streamDone =>
        (if bufferBySentence && stripNonempty buffer then
           [OutputFrame.chunk buffer] else [])
          ++ [OutputFrame.done]
    | .streamError msg => [OutputFrame.errorFrame msg]
    | .event .messageCreated => streamLoop bufferBySentence buffer rest
    | .event .otherEvent => streamLoop bufferBySentence buffer rest
    | .event (.runFailed msg) => [OutputFrame.errorFrame msg]
    | .event .runCompleted =>
        (if bufferBySentence && stripNonempty buffer then
           [OutputFrame.chunk buffer] else [])
          ++ [OutputFrame.done]
    | .event (.contentDelta t) =>
        if bufferBySentence then
          let b := buffer ++ t
          let segs := extractCompleteSegments b
          let rem := getRemainingBuffer b
          if rem.length > MAX_BUFFER_SIZE then
            segs.map OutputFrame.chunk ++ [OutputFrame.chunk rem]
              ++ streamLoop bufferBySentence [] rest
          else
            segs.map OutputFrame.chunk ++ streamLoop bufferBySentence rem rest
        else
          OutputFrame.chunk t :: streamLoop bufferBySentence buffer rest

/-- The text carried by a `Chunk` frame (empty for other frames). -/
def chunkText : OutputFrame → List Char
  | .chunk t => t
  | _ => []

/-- Concatenation of the texts of all `Chunk` frames in a frame list. -/
def chunkConcat (fs : List OutputFrame) : List Char :=
  (fs.map chunkText).flatten

/-- Frames that terminate the stream: `Done` and `Error`. -/
def isTerminalFrame : OutputFrame → Bool
  | .done => true
  | .errorFrame _ => true
  | _ => false

def isDoneFrame : OutputFrame → Bool
  | .done => true
  | _ => false

def isErrorFrame : OutputFrame → Bool
  | .errorFrame _ => true
  | _ => false

/-- Holds iff the first terminal frame of the list, if any, is its last
element: no frame of any kind follows a terminal frame. -/
def terminalOnlyLast : List OutputFrame → Bool
  | [] => true
  | f :: rest => if isTerminalFrame f then rest.isEmpty else terminalOnlyLast rest

/-- Queue items that neither end the loop nor emit a terminal frame:
message-created, content deltas, and unhandled event types. -/
def nonTerminalItem : QueueItem → Bool
  | .event .messageCreated => true
  | .event (.contentDelta _) => true
  | .event .otherEvent => true
  | _ => false

/-- Specification device for the proofs: the value of `last_idx` after the
forward scan of `extractLoop` finishes, computed by the same recursion
(first argument is the remaining suffix `buffer[i:]`). -/
def finalLast : List Char → Nat → Nat → Nat
  | [], _, lastIdx => lastIdx
  | c :: s, i, lastIdx =>
    if isBoundaryChar c then
      match s with
      | d :: _ =>
        if isSegSpaceChar d then finalLast s (i + 1) (i + 2)
        else finalLast s (i + 1) lastIdx
      | [] => i + 1
    else finalLast s (i + 1) lastIdx

/-- Specification device: index `k` of the buffer is an emission point of the
scan — a boundary character followed by segmentation whitespace or sitting at
the very end of the buffer. -/
def condAt (b : List Char) (k : Nat) : Bool :=
  if h : k < b.length then
    isBoundaryChar (b.get ⟨k, h⟩) &&
      (if h2 : k + 1 < b.length then isSegSpaceChar (b.get ⟨k + 1, h2⟩)
       else true)
  else false

/-- Specification device: the `last_idx` value an emission at index `k`
produces. -/
def condVal (b : List Char) (k : Nat) : Nat :=
  if k + 1 < b.length then k + 2 else k + 1

/-- Specification device for the proofs: the segmentation buffer left after
the loop of `chat_with_agent_stream` has consumed the given queue items
(mirrors exactly the buffer updates of `streamLoop`). -/
def streamBufAfter (bbs : Bool) (buf : List Char) : List QueueItem → List Char
  | [] => buf
  | item :: rest =>
    match item with
    | .event (.contentDelta t) =>
      if bbs then
        let rem := getRemainingBuffer (buf ++ t)
        if rem.length > MAX_BUFFER_SIZE then streamBufAfter bbs [] rest
        else streamBufAfter bbs rem rest
      else streamBufAfter bbs buf rest
    | _ => streamBufAfter bbs buf rest

/-! ## Rubric Scoring Engine -/

/-- Embeds the `RawScores` pydantic model (interview_router.py lines 30-37).
The fields are plain `int`s: the `1-5` annotations are comments only, pydantic
enforces no range. -/
structure RawScores where
  opening_rapport : Int
  discovery_qualification : Int
  value_messaging : Int
  objection_handling : Int
  trial_advancement : Int
  listening_adaptability : Int
  professionalism : Int
deriving DecidableEq

/-- Embeds the `WeightedPoints` pydantic model (lines 40-47); again the
weight-range annotations are comments only. -/
structure WeightedPoints where
  opening_rapport : Int
  discovery_qualification : Int
  value_messaging : Int
  objection_handling : Int
  trial_advancement : Int
  listening_adaptability : Int
  professionalism : Int
deriving DecidableEq

/-- Embeds the `Deduction` pydantic model (lines 50-52). -/
structure Deduction where
  reason : String
  points : Int
deriving DecidableEq

/-- A successfully JSON-parsed collaborator response.  `Option` marks keys
that may be absent from the JSON object; present fields are assumed
well-typed (floats modelled as `ℚ`). -/
structure ScoreData where
  raw_scores : Option RawScores
  weighted_points : Option WeightedPoints
  pre_deduction_total : Option ℚ
  deductions : Option (List Deduction)
  final_score : Option ℚ
  tier : Option String
  strengths : Option (List String)
  coaching_items : Option (List String)
  detailed_feedback : Option String
deriving DecidableEq

/-- The collaborator's reply: either text that fails `json.loads`, or a
parsed JSON object. -/
inductive CollabResponse where
  | notJson (raw : String)
  | jsonData (d : ScoreData)
deriving DecidableEq

/-- Embeds the `ScoreInterviewResponse` pydantic model (lines 55-64). -/
structure ScoreInterviewResponse where
  raw_scores : RawScores
  weighted_points : WeightedPoints
  pre_deduction_total : ℚ
  deductions : List Deduction
  final_score : ℚ
  tier : String
  strengths : List String
  coaching_items : List String
  detailed_feedback : String
deriving DecidableEq

/-- The `HTTPException`s the endpoint raises, by status code and the fixed
prefix of the detail message. -/
inductive ScoreFailure where
  | httpError (status : Nat) (detail : String)
deriving DecidableEq

/-- Embeds the response handling of `score_interview` (interview_router.py
lines 77-81 and 294-325).  With no API key configured the endpoint returns
503 before calling the collaborator.  A `json.JSONDecodeError` is mapped to
the 500 "Invalid response format" error (line 314-319).  A missing
`raw_scores` or `weighted_points` key raises `KeyError` at lines 298-299,
caught by the generic handler (lines 320-325) as a 500 "Failed to score
interview" error.  All other fields are read with `.get` defaults
(lines 300-312); no value is recomputed, clamped, or range-checked. -/
def score_interview (apiKeyConfigured : Bool) (resp : CollabResponse) :
    Except ScoreFailure ScoreInterviewResponse :=
  if !apiKeyConfigured then
    .error (.httpError 503 "OpenAI API key not configured")
  else
    match resp with
    | .notJson _ =>
        .error (.httpError 500 "Invalid response format from scoring service")
    | .jsonData d =>
      match d.raw_scores, d.weighted_points with
      | none, _ =>
          .error (.httpError 500 "Failed to score interview: raw_scores")
      | some _, none =>
          .error (.httpError 500 "Failed to score interview: weighted_points")
      | some rs, some wp =>
          .ok {
            raw_scores := rs
            weighted_points := wp
            pre_deduction_total := d.pre_deduction_total.getD 0
            deductions := d.deductions.getD []
            final_score := d.final_score.getD 0
            tier := d.tier.getD "Developing"
            strengths := d.strengths.getD []
            coaching_items := d.coaching_items.getD []
            detailed_feedback :=
              d.detailed_feedback.getD "No detailed feedback available" }

/-- Modelled from the spec (section 3 invariant and section 4.2): the final
score the spec says the engine recomputes,
`clamp(preDeductionTotal + sum of deduction points, 0, 100)`.  Stated here
only to compare the spec's demanded value with what the code returns. -/
def specClampFinalScore (pre : ℚ) (points : List Int) : ℚ :=
  min 100 (max 0 (pre + ((points.map (fun p => (p : ℚ))).sum)))

/-! ## Concrete data used by counterexamples and witnesses -/

/-- Raw scores all 3: an in-range value set. -/
def rsAll3 : RawScores := ⟨3, 3, 3, 3, 3, 3, 3⟩

/-- Weighted points all 5: an in-range value set. -/
def wpAll5 : WeightedPoints := ⟨5, 5, 5, 5, 5, 5, 5⟩

/-- A structured response with `pre_deduction_total = 82`, deductions
`[-5, -8]`, but an upstream `final_score` of 50 (inconsistent with the
clamp invariant, which would give 69). -/
def c1Data : ScoreData :=
  { raw_scores := some rsAll3
    weighted_points := some wpAll5
    pre_deduction_total := some 82
    deductions := some [⟨"Interrupting prospect repeatedly", -5⟩,
                        ⟨"Never asking for a next step", -8⟩]
    final_score := some 50
    tier := some "Strong"
    strengths := none
    coaching_items := none
    detailed_feedback := none }

/-- A structured response with `pre_deduction_total = 20`, deductions summing
to `-40`, and an upstream `final_score` of `-20` with tier `"Strong"`. -/
def c5Data : ScoreData :=
  { raw_scores := some rsAll3
    weighted_points := some wpAll5
    pre_deduction_total := some 20
    deductions := some [⟨"Misrepresenting pricing or product", -10⟩,
                        ⟨"Using aggressive or dismissive language", -10⟩,
                        ⟨"Never asking for a next step", -8⟩,
                        ⟨"Ignoring a stated objection", -6⟩,
                        ⟨"Interrupting prospect repeatedly", -6⟩]
    final_score := some (-20)
    tier := some "Strong"
    strengths := none
    coaching_items := none
    detailed_feedback := none }

/-- A structured response whose raw score for opening/rapport is 42 (outside
1..5) and whose weighted points for professionalism are 999 (outside 0..5). -/
def c6Data : ScoreData :=
  { raw_scores := some ⟨42, 3, 3, 3, 3, 3, 3⟩
    weighted_points := some ⟨5, 5, 5, 5, 5, 5, 999⟩
    pre_deduction_total := some 50
    deductions := some []
    final_score := some 50
    tier := some "Developing"
    strengths := none
    coaching_items := none
    detailed_feedback := none }

/-- A structured response with every key absent — in particular no
`raw_scores`. -/
def scoreDataAllNone : ScoreData :=
  { raw_scores := none
    weighted_points := none
    pre_deduction_total := none
    deductions := none
    final_score := none
    tier := none
    strengths := none
    coaching_items := none
    detailed_feedback := none }

/-- A structured response carrying only `raw_scores` and `weighted_points`;
every optional field is absent. -/
def c10Data : ScoreData :=
  { raw_scores := some rsAll3
    weighted_points := some wpAll5
    pre_deduction_total := none
    deductions := none
    final_score := none
    tier := none
    strengths := none
    coaching_items := none
    detailed_feedback := none }

/-- The report the endpoint returns for `c1Data`. -/
def c1Response : ScoreInterviewResponse :=
  { raw_scores := rsAll3
    weighted_points := wpAll5
    pre_deduction_total := 82
    deductions := [⟨"Interrupting prospect repeatedly", -5⟩,
                   ⟨"Never asking for a next step", -8⟩]
    final_score := 50
    tier := "Strong"
    strengths := []
    coaching_items := []
    detailed_feedback := "No detailed feedback available" }

/-- The report the endpoint returns for `c5Data`. -/
def c5Response : ScoreInterviewResponse :=
  { raw_scores := rsAll3
    weighted_points := wpAll5
    pre_deduction_total := 20
    deductions := [⟨"Misrepresenting pricing or product", -10⟩,
                   ⟨"Using aggressive or dismissive language", -10⟩,
                   ⟨"Never asking for a next step", -8⟩,
                   ⟨"Ignoring a stated objection", -6⟩,
                   ⟨"Interrupting prospect repeatedly", -6⟩]
    final_score := -20
    tier := "Strong"
    strengths := []
    coaching_items := []
    detailed_feedback := "No detailed feedback available" }

/-- The report the endpoint returns for `c6Data`. -/
def c6Response : ScoreInterviewResponse :=
  { raw_scores := ⟨42, 3, 3, 3, 3, 3, 3⟩
    weighted_points := ⟨5, 5, 5, 5, 5, 5, 999⟩
    pre_deduction_total := 50
    deductions := []
    final_score := 50
    tier := "Developing"
    strengths := []
    coaching_items := []
    detailed_feedback := "No detailed feedback available" }

/-! ## Lemmas about the segmentation scans -/

/-- Splitting a drop at an intermediate take: the slice `u[a:m]` followed by
`u[m:]` is `u[a:]`. -/
lemma drop_take_append (u : List Char) (a m : Nat) (ham : a ≤ m) :
    (u.take m).drop a ++ u.drop m = u.drop a := by
  rcases le_or_lt a (u.take m).length with hle | hlt
  · conv_rhs => rw [← List.take_append_drop m u]
    rw [List.drop_append_eq_append_drop]
    have : a - (u.take m).length = 0 := Nat.sub_eq_zero_of_le hle
    rw [this, List.drop_zero]
  · have hlen : (u.take m).length = min m u.length := List.length_take m u
    have hu : u.length < a := by
      rcases Nat.le_total m u.length with h1 | h1
      · omega
      · rw [hlen, Nat.min_eq_right h1] at hlt; omega
    have h1 : u.take m = u := List.take_of_length_le (by omega)
    have h2 : u.drop m = [] := List.drop_eq_nil_of_le (by omega)
    rw [h1, h2, List.append_nil]

/-- The slice `l[a:m]` followed by `l[m:F]` is `l[a:F]` when `a ≤ m ≤ F`. -/
lemma slice_glue (l : List Char) (a m F : Nat) (ham : a ≤ m) (hmF : m ≤ F) :
    (l.take m).drop a ++ (l.take F).drop m = (l.take F).drop a := by
  have h1 : (l.take F).take m = l.take m := by
    rw [List.take_take, Nat.min_eq_left hmF]
  rw [← h1]
  exact drop_take_append (l.take F) a m ham

/-- Unfolding step of `finalLast` with at least two characters left. -/
lemma finalLast_cons_cons (c d : Char) (t : List Char) (i lastIdx : Nat) :
    finalLast (c :: d :: t) i lastIdx =
      if isBoundaryChar c then
        (if isSegSpaceChar d then finalLast (d :: t) (i + 1) (i + 2)
         else finalLast (d :: t) (i + 1) lastIdx)
      else finalLast (d :: t) (i + 1) lastIdx := rfl

/-- Unfolding step of `finalLast` at the final character. -/
lemma finalLast_single (c : Char) (i lastIdx : Nat) :
    finalLast [c] i lastIdx =
      if isBoundaryChar c then i + 1 else lastIdx := by
  by_cases hb : isBoundaryChar c = true <;> simp [finalLast, hb]

/-- Unfolding step of `extractLoop` with at least two characters left. -/
lemma extractLoop_cons_cons (b : List Char) (c d : Char) (t : List Char)
    (i lastIdx : Nat) (segs : List (List Char)) :
    extractLoop b (c :: d :: t) i lastIdx segs =
      if isBoundaryChar c then
        (if isSegSpaceChar d then
           extractLoop b (d :: t) (i + 1) (i + 2)
             (segs ++ [(b.take (i + 2)).drop lastIdx])
         else extractLoop b (d :: t) (i + 1) lastIdx segs)
      else extractLoop b (d :: t) (i + 1) lastIdx segs := rfl

/-- Unfolding step of `extractLoop` at the final character. -/
lemma extractLoop_single (b : List Char) (c : Char) (i lastIdx : Nat)
    (segs : List (List Char)) :
    extractLoop b [c] i lastIdx segs =
      if isBoundaryChar c then segs ++ [(b.take (i + 1)).drop lastIdx]
      else segs := by
  by_cases hb : isBoundaryChar c = true <;> simp [extractLoop, hb]

/-- The tracked `last_idx` never decreases below its starting value. -/
lemma finalLast_ge : ∀ (s : List Char) (i lastIdx : Nat), lastIdx ≤ i + 1 →
    lastIdx ≤ finalLast s i lastIdx := by
  intro s
  induction s with
  | nil => intro i lastIdx _; simp [finalLast]
  | cons c s ih =>
    intro i lastIdx h
    cases s with
    | nil =>
      rw [finalLast_single]
      by_cases hb : isBoundaryChar c = true <;> simp [hb] <;> omega
    | cons d t =>
      rw [finalLast_cons_cons]
      by_cases hb : isBoundaryChar c = true
      · rw [if_pos hb]
        by_cases hd : isSegSpaceChar d = true
        · rw [if_pos hd]
          have := ih (i + 1) (i + 2) (by omega)
          omega
        · rw [if_neg hd]
          exact ih (i + 1) lastIdx (by omega)
      · rw [if_neg hb]
        exact ih (i + 1) lastIdx (by omega)

/-- Concatenating the segments produced by the forward scan yields exactly
the prefix of the buffer up to the final `last_idx`. -/
lemma extractLoop_flatten (b : List Char) :
    ∀ (s : List Char) (i lastIdx : Nat) (segs : List (List Char)),
      lastIdx ≤ i + 1 →
      (extractLoop b s i lastIdx segs).flatten
        = segs.flatten ++ (b.take (finalLast s i lastIdx)).drop lastIdx := by
  intro s
  induction s with
  | nil =>
    intro i lastIdx segs _
    have hnil : (b.take lastIdx).drop lastIdx = [] :=
      List.drop_eq_nil_of_le (by simpa using Nat.min_le_left lastIdx b.length)
    simp [extractLoop, finalLast, hnil]
  | cons c s ih =>
    intro i lastIdx segs h
    cases s with
    | nil =>
      have hnil : (b.take lastIdx).drop lastIdx = [] :=
        List.drop_eq_nil_of_le (by simpa using Nat.min_le_left lastIdx b.length)
      rw [extractLoop_single, finalLast_single]
      by_cases hb : isBoundaryChar c = true
      · rw [if_pos hb, if_pos hb]
        simp
      · rw [if_neg hb, if_neg hb, hnil, List.append_nil]
    | cons d t =>
      rw [extractLoop_cons_cons, finalLast_cons_cons]
      by_cases hb : isBoundaryChar c = true
      · rw [if_pos hb, if_pos hb]
        by_cases hd : isSegSpaceChar d = true
        · rw [if_pos hd, if_pos hd]
          rw [ih (i + 1) (i + 2)
            (segs ++ [(b.take (i + 2)).drop lastIdx]) (by omega)]
          have hF : i + 2 ≤ finalLast (d :: t) (i + 1) (i + 2) :=
            finalLast_ge (d :: t) (i + 1) (i + 2) (by omega)
          have hglue := slice_glue b lastIdx (i + 2)
            (finalLast (d :: t) (i + 1) (i + 2)) (by omega) hF
          rw [List.flatten_append, List.flatten_cons, List.flatten_nil,
            List.append_nil, List.append_assoc, hglue]
        · rw [if_neg hd, if_neg hd]
          exact ih (i + 1) lastIdx segs (by omega)
      · rw [if_neg hb, if_neg hb]
        exact ih (i + 1) lastIdx segs (by omega)

/-- Inverting `b.drop i = c :: s`: index `i` is in range, holds `c`, and the
rest of the drop is `s`. -/
lemma drop_cons_inv (b : List Char) (i : Nat) (c : Char) (s : List Char)
    (h : b.drop i = c :: s) :
    ∃ hi : i < b.length, b.get ⟨i, hi⟩ = c ∧ b.drop (i + 1) = s := by
  have hi : i < b.length := by
    by_contra hge
    rw [List.drop_eq_nil_of_le (by omega)] at h
    exact List.noConfusion h
  refine ⟨hi, ?_⟩
  rw [List.drop_eq_getElem_cons hi] at h
  have := List.cons.inj h
  simpa using this

/-- If no emission point lies at or after index `i`, the scan starting there
leaves `last_idx` unchanged. -/
lemma finalLast_no_cond (b : List Char) :
    ∀ (s : List Char) (i lastIdx : Nat), b.drop i = s →
      (∀ j, i ≤ j → condAt b j = false) → finalLast s i lastIdx = lastIdx := by
  intro s
  induction s with
  | nil => intro i lastIdx _ _; simp [finalLast]
  | cons c s ih =>
    intro i lastIdx hdrop hnone
    obtain ⟨hi, hc, hs⟩ := drop_cons_inv b i c s hdrop
    have hcond := hnone i le_rfl
    cases s with
    | nil =>
      have hlen : b.length ≤ i + 1 := by
        by_contra hlt
        rw [List.drop_eq_getElem_cons (by omega)] at hs
        exact List.noConfusion hs
      have : isBoundaryChar c = false := by
        unfold condAt at hcond
        rw [dif_pos hi, hc, dif_neg (by omega)] at hcond
        simpa using hcond
      rw [finalLast_single, if_neg (by simp [this])]
    | cons d t =>
      obtain ⟨hi1, hd, -⟩ := drop_cons_inv b (i + 1) d t hs
      rw [finalLast_cons_cons]
      by_cases hb : isBoundaryChar c = true
      · have hsp : isSegSpaceChar d = false := by
          unfold condAt at hcond
          rw [dif_pos hi, hc, dif_pos hi1, hd, hb] at hcond
          simpa using hcond
        rw [if_pos hb, if_neg (by simp [hsp])]
        exact ih (i + 1) lastIdx hs (fun j hj => hnone j (by omega))
      · rw [if_neg hb]
        exact ih (i + 1) lastIdx hs (fun j hj => hnone j (by omega))

/-- If `k` is the last emission point, the scan starting at or before `k`
finishes with `last_idx = condVal b k`. -/
lemma finalLast_last_cond (b : List Char) (k : Nat)
    (hk : condAt b k = true) (hafter : ∀ j, k < j → condAt b j = false) :
    ∀ (s : List Char) (i lastIdx : Nat), b.drop i = s → i ≤ k →
      finalLast s i lastIdx = condVal b k := by
  intro s
  induction s with
  | nil =>
    intro i lastIdx hdrop hik
    exfalso
    have hlen : b.length ≤ i := by
      by_contra hlt
      rw [List.drop_eq_getElem_cons (by omega)] at hdrop
      exact List.noConfusion hdrop
    unfold condAt at hk
    rw [dif_neg (by omega)] at hk
    exact Bool.noConfusion hk
  | cons c s ih =>
    intro i lastIdx hdrop hik
    obtain ⟨hi, hc, hs⟩ := drop_cons_inv b i c s hdrop
    rcases Nat.eq_or_lt_of_le hik with heq | hlt
    · subst heq
      have hb : isBoundaryChar c = true := by
        unfold condAt at hk
        rw [dif_pos hi, hc] at hk
        exact (Bool.and_eq_true_iff.mp hk).1
      cases s with
      | nil =>
        have hlen : b.length ≤ i + 1 := by
          by_contra hl
          rw [List.drop_eq_getElem_cons (by omega)] at hs
          exact List.noConfusion hs
        rw [finalLast_single, if_pos hb]
        unfold condVal
        rw [if_neg (by omega)]
      | cons d t =>
        obtain ⟨hi1, hd, -⟩ := drop_cons_inv b (i + 1) d t hs
        have hsp : isSegSpaceChar d = true := by
          unfold condAt at hk
          rw [dif_pos hi, hc, dif_pos hi1, hd] at hk
          exact (Bool.and_eq_true_iff.mp hk).2
        rw [finalLast_cons_cons, if_pos hb, if_pos hsp]
        rw [finalLast_no_cond b (d :: t) (i + 1) (i + 2) hs
          (fun j hj => hafter j (by omega))]
        unfold condVal
        rw [if_pos hi1]
    · cases s with
      | nil =>
        exfalso
        have hlen : b.length ≤ i + 1 := by
          by_contra hl
          rw [List.drop_eq_getElem_cons (by omega)] at hs
          exact List.noConfusion hs
        unfold condAt at hk
        rw [dif_neg (by omega)] at hk
        exact Bool.noConfusion hk
      | cons d t =>
        rw [finalLast_cons_cons]
        by_cases hb : isBoundaryChar c = true
        · by_cases hsp : isSegSpaceChar d = true
          · rw [if_pos hb, if_pos hsp]
            exact ih (i + 1) (i + 2) hs (by omega)
          · rw [if_pos hb, if_neg hsp]
            exact ih (i + 1) lastIdx hs (by omega)
        · rw [if_neg hb]
          exact ih (i + 1) lastIdx hs (by omega)

/-- The backward scan agrees with the forward scan: if every index at or
beyond `n` fails the emission test, examining indices below `n` backwards
returns the buffer after the forward scan's final `last_idx`. -/
lemma remLoop_eq_drop_finalLast (b : List Char) :
    ∀ n : Nat, n ≤ b.length → (∀ j, n ≤ j → condAt b j = false) →
      remLoop b n = b.drop (finalLast b 0 0) := by
  intro n
  induction n with
  | zero =>
    intro _ hnone
    rw [finalLast_no_cond b b 0 0 (by simp) (fun j _ => hnone j (Nat.zero_le j))]
    simp [remLoop]
  | succ k ih =>
    intro hlen hnone
    have hk : k < b.length := by omega
    rw [remLoop, dif_pos hk]
    by_cases hbd : isBoundaryChar (b.get ⟨k, hk⟩) = true
    · rw [if_pos hbd]
      by_cases h2 : k + 1 < b.length
      · rw [dif_pos h2]
        by_cases hsp : isSegSpaceChar (b.get ⟨k + 1, h2⟩) = true
        · rw [if_pos hsp]
          have hck : condAt b k = true := by
            unfold condAt
            rw [dif_pos hk, hbd, dif_pos h2, hsp]
            rfl
          rw [finalLast_last_cond b k hck
            (fun j hj => hnone j (by omega)) b 0 0 (by simp) (Nat.zero_le k)]
          unfold condVal
          rw [if_pos h2]
        · rw [if_neg hsp]
          have hck : condAt b k = false := by
            unfold condAt
            rw [dif_pos hk, hbd, dif_pos h2]
            simpa using hsp
          refine ih (by omega) (fun j hj => ?_)
          rcases Nat.eq_or_lt_of_le hj with heq | hlt
          · rw [← heq]; exact hck
          · exact hnone j (by omega)
      · rw [dif_neg h2]
        have hck : condAt b k = true := by
          unfold condAt
          rw [dif_pos hk, hbd, dif_neg h2]
          rfl
        rw [finalLast_last_cond b k hck
          (fun j hj => hnone j (by omega)) b 0 0 (by simp) (Nat.zero_le k)]
        unfold condVal
        rw [if_neg h2]
        exact (List.drop_eq_nil_of_le (by omega)).symm
    · rw [if_neg hbd]
      have hck : condAt b k = false := by
        unfold condAt
        rw [dif_pos hk, eq_false_of_ne_true hbd]
        simp
      refine ih (by omega) (fun j hj => ?_)
      rcases Nat.eq_or_lt_of_le hj with heq | hlt
      · rw [← heq]; exact hck
      · exact hnone j (by omega)

/-- Segmentation loses nothing: the concatenation of the extracted segments
followed by the remaining buffer is the original buffer. -/
lemma segments_concat (b : List Char) :
    (extractCompleteSegments b).flatten ++ getRemainingBuffer b = b := by
  have h1 := extractLoop_flatten b b 0 0 [] (by omega)
  have h2 : remLoop b b.length = b.drop (finalLast b 0 0) := by
    refine remLoop_eq_drop_finalLast b b.length le_rfl (fun j hj => ?_)
    unfold condAt
    rw [dif_neg (by omega)]
  unfold extractCompleteSegments getRemainingBuffer
  rw [h1, h2]
  simp [List.take_append_drop]

/-! ## Lemmas about the streaming loop -/

lemma streamLoop_runCompleted (bbs : Bool) (buffer : List Char)
    (rest : List QueueItem) :
    streamLoop bbs buffer (QueueItem.event DeltaEvent.runCompleted :: rest) =
      (if bbs && stripNonempty buffer then [OutputFrame.chunk buffer] else [])
        ++ [OutputFrame.done] := rfl

lemma streamLoop_streamDone (bbs : Bool) (buffer : List Char)
    (rest : List QueueItem) :
    streamLoop bbs buffer (QueueItem.streamDone :: rest) =
      (if bbs && stripNonempty buffer then [OutputFrame.chunk buffer] else [])
        ++ [OutputFrame.done] := rfl

lemma streamLoop_runFailed (bbs : Bool) (buffer : List Char) (msg : String)
    (rest : List QueueItem) :
    streamLoop bbs buffer (QueueItem.event (DeltaEvent.runFailed msg) :: rest)
      = [OutputFrame.errorFrame msg] := rfl

lemma streamLoop_streamError (bbs : Bool) (buffer : List Char) (msg : String)
    (rest : List QueueItem) :
    streamLoop bbs buffer (QueueItem.streamError msg :: rest)
      = [OutputFrame.errorFrame msg] := rfl

lemma streamLoop_messageCreated (bbs : Bool) (buffer : List Char)
    (rest : List QueueItem) :
    streamLoop bbs buffer (QueueItem.event DeltaEvent.messageCreated :: rest)
      = streamLoop bbs buffer rest := rfl

lemma streamLoop_otherEvent (bbs : Bool) (buffer : List Char)
    (rest : List QueueItem) :
    streamLoop bbs buffer (QueueItem.event DeltaEvent.otherEvent :: rest)
      = streamLoop bbs buffer rest := rfl

lemma streamLoop_delta_true (buffer t : List Char) (rest : List QueueItem) :
    streamLoop true buffer
        (QueueItem.event (DeltaEvent.contentDelta t) :: rest) =
      if (getRemainingBuffer (buffer ++ t)).length > MAX_BUFFER_SIZE then
        (extractCompleteSegments (buffer ++ t)).map OutputFrame.chunk
          ++ [OutputFrame.chunk (getRemainingBuffer (buffer ++ t))]
          ++ streamLoop true [] rest
      else
        (extractCompleteSegments (buffer ++ t)).map OutputFrame.chunk
          ++ streamLoop true (getRemainingBuffer (buffer ++ t)) rest := rfl

lemma streamLoop_delta_false (buffer t : List Char) (rest : List QueueItem) :
    streamLoop false buffer
        (QueueItem.event (DeltaEvent.contentDelta t) :: rest) =
      OutputFrame.chunk t :: streamLoop false buffer rest := rfl

lemma chunkConcat_append (xs ys : List OutputFrame) :
    chunkConcat (xs ++ ys) = chunkConcat xs ++ chunkConcat ys := by
  simp [chunkConcat]

lemma chunkConcat_map_chunk (l : List (List Char)) :
    chunkConcat (l.map OutputFrame.chunk) = l.flatten := by
  induction l with
  | nil => rfl
  | cons x xs ih => simp [chunkConcat, chunkText] at ih ⊢; exact ih

/-- A falsy `buffer.strip()` means the buffer is all whitespace. -/
lemma strip_false_all_ws (buf : List Char) (h : stripNonempty buf = false) :
    ∀ c ∈ buf, pyWhitespace c = true := by
  intro c hc
  unfold stripNonempty at h
  rw [List.any_eq_false] at h
  simpa using h c hc

/-- Core accounting for the sentence-segmented stream: the chunks emitted for
a delta list followed by run completion cover the whole input except possibly
a whitespace-only final remainder. -/
lemma stream_concat : ∀ (deltas : List (List Char)) (buf : List Char),
    ∃ dropped : List Char, (∀ c ∈ dropped, pyWhitespace c = true) ∧
      chunkConcat (streamLoop true buf
        (deltas.map (fun d => QueueItem.event (DeltaEvent.contentDelta d))
          ++ [QueueItem.event DeltaEvent.runCompleted])) ++ dropped
        = buf ++ deltas.flatten := by
  intro deltas
  induction deltas with
  | nil =>
    intro buf
    rw [List.map_nil, List.nil_append, streamLoop_runCompleted]
    by_cases hs : stripNonempty buf = true
    · refine ⟨[], by simp, ?_⟩
      simp [hs, chunkConcat, chunkText]
    · rw [Bool.not_eq_true] at hs
      refine ⟨buf, strip_false_all_ws buf hs, ?_⟩
      simp [hs, chunkConcat, chunkText]
  | cons d rest ih =>
    intro buf
    rw [List.map_cons, List.cons_append, streamLoop_delta_true]
    have key := segments_concat (buf ++ d)
    by_cases hlen :
        (getRemainingBuffer (buf ++ d)).length > MAX_BUFFER_SIZE
    · rw [if_pos hlen]
      obtain ⟨dr, hdr, hcc⟩ := ih []
      rw [List.nil_append] at hcc
      refine ⟨dr, hdr, ?_⟩
      rw [chunkConcat_append, chunkConcat_append, chunkConcat_map_chunk]
      have hone : chunkConcat [OutputFrame.chunk
          (getRemainingBuffer (buf ++ d))] = getRemainingBuffer (buf ++ d) := by
        simp [chunkConcat, chunkText]
      rw [hone]
      simp only [List.append_assoc]
      conv_lhs => rw [← List.append_assoc, ← List.append_assoc]
      rw [List.append_assoc ((extractCompleteSegments (buf ++ d)).flatten
        ++ getRemainingBuffer (buf ++ d)), key, hcc]
      simp
    · rw [if_neg hlen]
      obtain ⟨dr, hdr, hcc⟩ := ih (getRemainingBuffer (buf ++ d))
      refine ⟨dr, hdr, ?_⟩
      rw [chunkConcat_append, chunkConcat_map_chunk]
      rw [List.append_assoc, hcc, ← List.append_assoc, key]
      simp

/-- Chunk frames never satisfy a predicate that is false on chunks. -/
lemma filter_map_chunk (p : OutputFrame → Bool)
    (hp : ∀ t, p (OutputFrame.chunk t) = false) (l : List (List Char)) :
    (l.map OutputFrame.chunk).filter p = [] := by
  induction l with
  | nil => rfl
  | cons x xs ih => simp [hp, ih]

/-- Processing only non-terminal queue items emits chunk frames only, and the
loop continues on the rest with the buffer tracked by `streamBufAfter`. -/
lemma streamLoop_nonterminal (bbs : Bool) :
    ∀ (evs : List QueueItem) (buf : List Char) (rest : List QueueItem),
      (∀ x ∈ evs, nonTerminalItem x = true) →
      ∃ ts : List (List Char),
        streamLoop bbs buf (evs ++ rest)
          = ts.map OutputFrame.chunk
            ++ streamLoop bbs (streamBufAfter bbs buf evs) rest := by
  intro evs
  induction evs with
  | nil => intro buf rest _; exact ⟨[], by simp [streamBufAfter]⟩
  | cons x evs ih =>
    intro buf rest hnt
    have hx := hnt x (List.mem_cons_self x evs)
    have hevs : ∀ y ∈ evs, nonTerminalItem y = true :=
      fun y hy => hnt y (List.mem_cons_of_mem x hy)
    cases x with
    | streamDone => exact absurd hx (by simp [nonTerminalItem])
    | streamError msg => exact absurd hx (by simp [nonTerminalItem])
    | event e =>
      cases e with
      | messageCreated =>
        obtain ⟨ts, hts⟩ := ih buf rest hevs
        exact ⟨ts, by
          rw [List.cons_append, streamLoop_messageCreated, hts]
          rfl⟩
      | otherEvent =>
        obtain ⟨ts, hts⟩ := ih buf rest hevs
        exact ⟨ts, by
          rw [List.cons_append, streamLoop_otherEvent, hts]
          rfl⟩
      | runCompleted => exact absurd hx (by simp [nonTerminalItem])
      | runFailed msg => exact absurd hx (by simp [nonTerminalItem])
      | contentDelta t =>
        cases bbs with
        | false =>
          obtain ⟨ts, hts⟩ := ih buf rest hevs
          refine ⟨t :: ts, ?_⟩
          rw [List.cons_append, streamLoop_delta_false, hts]
          simp [streamBufAfter]
        | true =>
          by_cases hlen :
              (getRemainingBuffer (buf ++ t)).length > MAX_BUFFER_SIZE
          · obtain ⟨ts, hts⟩ := ih [] rest hevs
            refine ⟨extractCompleteSegments (buf ++ t)
              ++ [getRemainingBuffer (buf ++ t)] ++ ts, ?_⟩
            rw [List.cons_append, streamLoop_delta_true, if_pos hlen, hts]
            have hbuf : streamBufAfter true buf
                (QueueItem.event (DeltaEvent.contentDelta t) :: evs)
                = streamBufAfter true [] evs := by
              simp [streamBufAfter, hlen]
            rw [hbuf]
            simp [List.append_assoc]
          · obtain ⟨ts, hts⟩ :=
              ih (getRemainingBuffer (buf ++ t)) rest hevs
            refine ⟨extractCompleteSegments (buf ++ t) ++ ts, ?_⟩
            rw [List.cons_append, streamLoop_delta_true, if_neg hlen, hts]
            have hbuf : streamBufAfter true buf
                (QueueItem.event (DeltaEvent.contentDelta t) :: evs)
                = streamBufAfter true (getRemainingBuffer (buf ++ t)) evs := by
              simp [streamBufAfter, hlen]
            rw [hbuf]
            simp [List.append_assoc]

/-- Prepending chunk frames does not affect where the first terminal frame
sits. -/
lemma terminalOnlyLast_map_chunk (l : List (List Char))
    (fs : List OutputFrame) :
    terminalOnlyLast (l.map OutputFrame.chunk ++ fs) = terminalOnlyLast fs := by
  induction l with
  | nil => rfl
  | cons x xs ih => simp [terminalOnlyLast, isTerminalFrame, ih]

/-- In every frame list the loop produces, the first terminal frame (if any)
is the final frame. -/
lemma streamLoop_terminalOnlyLast (bbs : Bool) :
    ∀ (items : List QueueItem) (buf : List Char),
      terminalOnlyLast (streamLoop bbs buf items) = true := by
  intro items
  induction items with
  | nil => intro buf; rfl
  | cons x items ih =>
    intro buf
    cases x with
    | streamDone =>
      rw [streamLoop_streamDone]
      by_cases hs : (bbs && stripNonempty buf) = true <;>
        simp [hs, terminalOnlyLast, isTerminalFrame]
    | streamError msg =>
      rw [streamLoop_streamError]
      simp [terminalOnlyLast, isTerminalFrame]
    | event e =>
      cases e with
      | messageCreated => rw [streamLoop_messageCreated]; exact ih buf
      | otherEvent => rw [streamLoop_otherEvent]; exact ih buf
      | runCompleted =>
        rw [streamLoop_runCompleted]
        by_cases hs : (bbs && stripNonempty buf) = true <;>
          simp [hs, terminalOnlyLast, isTerminalFrame]
      | runFailed msg =>
        rw [streamLoop_runFailed]
        simp [terminalOnlyLast, isTerminalFrame]
      | contentDelta t =>
        cases bbs with
        | false =>
          rw [streamLoop_delta_false]
          simp only [terminalOnlyLast, isTerminalFrame]
          exact ih buf
        | true =>
          rw [streamLoop_delta_true]
          by_cases hlen :
              (getRemainingBuffer (buf ++ t)).length > MAX_BUFFER_SIZE
          · rw [if_pos hlen, List.append_assoc, terminalOnlyLast_map_chunk]
            simp only [List.singleton_append, terminalOnlyLast, isTerminalFrame]
            exact ih []
          · rw [if_neg hlen, terminalOnlyLast_map_chunk]
            exact ih (getRemainingBuffer (buf ++ t))

/-- If the first terminal frame is the last frame, there is at most one
terminal frame. -/
lemma terminalOnlyLast_count (l : List OutputFrame)
    (h : terminalOnlyLast l = true) :
    (l.filter isTerminalFrame).length ≤ 1 := by
  induction l with
  | nil => simp
  | cons f fs ih =>
    by_cases hf : isTerminalFrame f = true
    · rw [terminalOnlyLast, if_pos hf] at h
      have : fs = [] := List.isEmpty_iff.mp h
      subst this
      simp [hf]
    · rw [terminalOnlyLast, if_neg hf] at h
      have hff : isTerminalFrame f = false := by
        rw [← Bool.not_eq_true]; exact hf
      simp [hff]
      exact ih h

/-- A buffer without boundary characters yields no segments. -/
lemma extractLoop_no_boundary (b : List Char) :
    ∀ (s : List Char) (i lastIdx : Nat) (segs : List (List Char)),
      (∀ c ∈ s, isBoundaryChar c = false) →
      extractLoop b s i lastIdx segs = segs := by
  intro s
  induction s with
  | nil => intro i lastIdx segs _; rfl
  | cons c s ih =>
    intro i lastIdx segs hnb
    have hc : isBoundaryChar c = false := hnb c (List.mem_cons_self c s)
    have hs : ∀ d ∈ s, isBoundaryChar d = false :=
      fun d hd => hnb d (List.mem_cons_of_mem c hd)
    cases s with
    | nil => rw [extractLoop_single, if_neg (by simp [hc])]
    | cons d t =>
      rw [extractLoop_cons_cons, if_neg (by simp [hc])]
      exact ih (i + 1) lastIdx segs hs

/-- A buffer without boundary characters is left intact by the backward
scan. -/
lemma remLoop_no_boundary (b : List Char)
    (hnb : ∀ c ∈ b, isBoundaryChar c = false) :
    ∀ n : Nat, remLoop b n = b := by
  intro n
  induction n with
  | zero => rfl
  | succ k ih =>
    rw [remLoop]
    by_cases hk : k < b.length
    · have hb : isBoundaryChar b[k] = false :=
        hnb b[k] (List.getElem_mem hk)
      rw [dif_pos hk, if_neg (by simp [hb])]
      exact ih
    · rw [dif_neg hk]
      exact ih

/-- A delta stream without boundary characters accumulating more than
`MAX_BUFFER_SIZE` characters forces at least one chunk during the delta
phase. -/
lemma no_boundary_forces_chunk :
    ∀ (deltas : List (List Char)) (buf : List Char),
      (∀ d ∈ deltas, ∀ c ∈ d, isBoundaryChar c = false) →
      (∀ c ∈ buf, isBoundaryChar c = false) →
      buf.length ≤ MAX_BUFFER_SIZE →
      MAX_BUFFER_SIZE < (buf ++ deltas.flatten).length →
      ∃ t, OutputFrame.chunk t ∈ streamLoop true buf
        (deltas.map (fun d => QueueItem.event (DeltaEvent.contentDelta d))) := by
  intro deltas
  induction deltas with
  | nil =>
    intro buf _ _ hle hgt
    exfalso
    simp at hgt
    omega
  | cons d rest ih =>
    intro buf hnd hnb hle hgt
    have hbd : ∀ c ∈ buf ++ d, isBoundaryChar c = false := by
      intro c hc
      rcases List.mem_append.mp hc with h | h
      · exact hnb c h
      · exact hnd d (List.mem_cons_self d rest) c h
    have hrem : getRemainingBuffer (buf ++ d) = buf ++ d :=
      remLoop_no_boundary (buf ++ d) hbd (buf ++ d).length
    have hseg : extractCompleteSegments (buf ++ d) = [] :=
      extractLoop_no_boundary (buf ++ d) (buf ++ d) 0 0 [] hbd
    rw [List.map_cons, streamLoop_delta_true, hrem, hseg]
    by_cases hlen : (buf ++ d).length > MAX_BUFFER_SIZE
    · refine ⟨buf ++ d, ?_⟩
      rw [if_pos hlen]
      simp
    · obtain ⟨t, ht⟩ := ih (buf ++ d)
        (fun e he => hnd e (List.mem_cons_of_mem d he)) hbd (by omega)
        (by simp at hgt ⊢; omega)
      refine ⟨t, ?_⟩
      rw [if_neg hlen]
      simp [ht]

/-! ## Lemmas about the scoring endpoint -/

/-- Inversion of a successful scoring call: the response must carry both
`raw_scores` and `weighted_points`, and every field of the report is the
response's value with the line 300-312 defaults. -/
lemma score_interview_ok_elim (k : Bool) (d : ScoreData)
    (r : ScoreInterviewResponse)
    (h : score_interview k (.jsonData d) = .ok r) :
    d.raw_scores = some r.raw_scores
    ∧ d.weighted_points = some r.weighted_points
    ∧ r.pre_deduction_total = d.pre_deduction_total.getD 0
    ∧ r.deductions = d.deductions.getD []
    ∧ r.final_score = d.final_score.getD 0
    ∧ r.tier = d.tier.getD "Developing"
    ∧ r.strengths = d.strengths.getD []
    ∧ r.coaching_items = d.coaching_items.getD []
    ∧ r.detailed_feedback
        = d.detailed_feedback.getD "No detailed feedback available" := by
  cases k with
  | false => simp [score_interview] at h
  | true =>
    rcases hrs : d.raw_scores with _ | rs
    · simp [score_interview, hrs] at h
    · rcases hwp : d.weighted_points with _ | wp
      · simp [score_interview, hrs, hwp] at h
      · obtain ⟨rrs, rwp, rpre, rded, rfs, rtier, rstr, rco, rdf⟩ := r
        simp only [score_interview, hrs, hwp, Bool.not_true,
          Bool.false_eq_true, if_false, Except.ok.injEq,
          ScoreInterviewResponse.mk.injEq] at h
        obtain ⟨h1, h2, h3, h4, h5, h6, h7, h8, h9⟩ := h
        subst h1; subst h2; subst h3; subst h4; subst h5
        subst h6; subst h7; subst h8; subst h9
        simp

/-! ## Claim theorems -/

/-- Claim C1, counterexample: for the structured response `c1Data` with
`pre_deduction_total = 82`, deductions `[-5, -8]` and an upstream
`final_score` of 50, the engine returns `finalScore = 50` — not the
spec-recomputed `clamp(82 + (-5 - 8), 0, 100) = 69`.  The engine does not
recompute the score. -/
theorem c1_counterexample :
    (score_interview true (.jsonData c1Data)).map
        (fun r => r.final_score) = .ok 50
    ∧ specClampFinalScore 82 [-5, -8] = 69
    ∧ (50 : ℚ) ≠ 69 :=
  ⟨rfl, by norm_num [specClampFinalScore], by decide⟩

/-- Claim C1, amended: for every scoring-collaborator response accepted by
`score_interview`, the returned `finalScore` is the collaborator's
`final_score` value passed through unchanged (0 when the field is absent);
the engine performs no recomputation and no clamping. -/
theorem c1_amended (k : Bool) (d : ScoreData) (r : ScoreInterviewResponse)
    (h : score_interview k (.jsonData d) = .ok r) :
    r.final_score = d.final_score.getD 0 :=
  (score_interview_ok_elim k d r h).2.2.2.2.1

/-- Claim C1, witness: the amended theorem evaluated on the concrete
response `c1Data`. -/
theorem c1_witness :
    score_interview true (.jsonData c1Data) = .ok c1Response
    ∧ c1Response.final_score = c1Data.final_score.getD 0 :=
  ⟨rfl, c1_amended true c1Data c1Response rfl⟩

/-- Claim C2, counterexample: for the delta sequence `[" "]` (a single
whitespace-only delta) followed by run completion, the concatenation of the
emitted chunk texts is empty, not `" "`: the whitespace-only final buffer is
dropped by the `buffer.strip()` guard at completion. -/
theorem c2_counterexample :
    chunkConcat (streamLoop true []
        ([[' ']].map (fun d => QueueItem.event (DeltaEvent.contentDelta d))
          ++ [QueueItem.event DeltaEvent.runCompleted]))
      ≠ ([[' ']] : List (List Char)).flatten := by decide

/-- Claim C2, amended: for every finite delta sequence processed with
`segmentBySentence = true` and terminated by run completion, the
concatenation of the emitted chunk texts equals the concatenation of the
input deltas up to a dropped suffix consisting entirely of whitespace (the
final buffer is only flushed when `buffer.strip()` is truthy); in particular
no characters are duplicated and no non-whitespace character is lost. -/
theorem c2_amended (deltas : List (List Char)) :
    ∃ dropped : List Char, (∀ c ∈ dropped, pyWhitespace c = true) ∧
      chunkConcat (streamLoop true []
        (deltas.map (fun d => QueueItem.event (DeltaEvent.contentDelta d))
          ++ [QueueItem.event DeltaEvent.runCompleted])) ++ dropped
        = deltas.flatten := by
  obtain ⟨dr, h1, h2⟩ := stream_concat deltas []
  exact ⟨dr, h1, by simpa using h2⟩

/-- Claim C3: terminal-frame protocol of the streaming loop.  (1) For every
event sequence whose items before the terminal are non-terminal and that ends
in run completion, the frames contain no `Error`, contain exactly one `Done`,
and end with `Done`.  (2) Ending in run failure instead: no `Done`, exactly
one `Error`, ending with that `Error`.  (3) A processing exception relayed on
the queue likewise produces exactly one `Error` and no `Done`.  (4) For every
item list whatsoever, at most one terminal frame is emitted and no frame of
any kind follows a terminal frame. -/
theorem c3_terminal_protocol :
    (∀ (bbs : Bool) (evs : List QueueItem),
      (∀ x ∈ evs, nonTerminalItem x = true) →
      (streamLoop bbs []
          (evs ++ [QueueItem.event DeltaEvent.runCompleted])).filter
          isErrorFrame = []
      ∧ (streamLoop bbs []
          (evs ++ [QueueItem.event DeltaEvent.runCompleted])).filter
          isDoneFrame = [OutputFrame.done]
      ∧ (streamLoop bbs []
          (evs ++ [QueueItem.event DeltaEvent.runCompleted])).getLast?
          = some OutputFrame.done)
    ∧ (∀ (bbs : Bool) (evs : List QueueItem) (msg : String),
      (∀ x ∈ evs, nonTerminalItem x = true) →
      (streamLoop bbs []
          (evs ++ [QueueItem.event (DeltaEvent.runFailed msg)])).filter
          isDoneFrame = []
      ∧ (streamLoop bbs []
          (evs ++ [QueueItem.event (DeltaEvent.runFailed msg)])).filter
          isErrorFrame = [OutputFrame.errorFrame msg]
      ∧ (streamLoop bbs []
          (evs ++ [QueueItem.event (DeltaEvent.runFailed msg)])).getLast?
          = some (OutputFrame.errorFrame msg))
    ∧ (∀ (bbs : Bool) (evs : List QueueItem) (msg : String),
      (∀ x ∈ evs, nonTerminalItem x = true) →
      (streamLoop bbs []
          (evs ++ [QueueItem.streamError msg])).filter isDoneFrame = []
      ∧ (streamLoop bbs []
          (evs ++ [QueueItem.streamError msg])).filter isErrorFrame
          = [OutputFrame.errorFrame msg])
    ∧ (∀ (bbs : Bool) (buf : List Char) (items : List QueueItem),
      terminalOnlyLast (streamLoop bbs buf items) = true
      ∧ ((streamLoop bbs buf items).filter isTerminalFrame).length ≤ 1) := by
  refine ⟨?_, ?_, ?_, ?_⟩
  · intro bbs evs h
    obtain ⟨ts, hts⟩ := streamLoop_nonterminal bbs evs []
      [QueueItem.event DeltaEvent.runCompleted] h
    rw [hts, streamLoop_runCompleted]
    by_cases hs : (bbs && stripNonempty (streamBufAfter bbs [] evs)) = true
    · rw [if_pos hs]
      refine ⟨?_, ?_, ?_⟩
      · rw [List.filter_append, filter_map_chunk _ (fun t => rfl)]
        simp [isErrorFrame, List.filter]
      · rw [List.filter_append, filter_map_chunk _ (fun t => rfl)]
        simp [isDoneFrame, List.filter]
      · rw [← List.append_assoc, List.getLast?_concat]
    · rw [if_neg hs]
      refine ⟨?_, ?_, ?_⟩
      · rw [List.filter_append, filter_map_chunk _ (fun t => rfl)]
        simp [isErrorFrame, List.filter]
      · rw [List.filter_append, filter_map_chunk _ (fun t => rfl)]
        simp [isDoneFrame, List.filter]
      · rw [← List.append_assoc, List.getLast?_concat]
  · intro bbs evs msg h
    obtain ⟨ts, hts⟩ := streamLoop_nonterminal bbs evs []
      [QueueItem.event (DeltaEvent.runFailed msg)] h
    rw [hts, streamLoop_runFailed]
    refine ⟨?_, ?_, ?_⟩
    · rw [List.filter_append, filter_map_chunk _ (fun t => rfl)]
      simp [isDoneFrame, List.filter]
    · rw [List.filter_append, filter_map_chunk _ (fun t => rfl)]
      simp [isErrorFrame, List.filter]
    · rw [List.getLast?_concat]
  · intro bbs evs msg h
    obtain ⟨ts, hts⟩ := streamLoop_nonterminal bbs evs []
      [QueueItem.streamError msg] h
    rw [hts, streamLoop_streamError]
    refine ⟨?_, ?_⟩
    · rw [List.filter_append, filter_map_chunk _ (fun t => rfl)]
      simp [isDoneFrame, List.filter]
    · rw [List.filter_append, filter_map_chunk _ (fun t => rfl)]
      simp [isErrorFrame, List.filter]
  · intro bbs buf items
    have h := streamLoop_terminalOnlyLast bbs items buf
    exact ⟨h, terminalOnlyLast_count _ h⟩

/-- Claim C3, witness: the protocol theorem evaluated on concrete event
sequences — a delta then completion; a delta then failure; a delta then a
relayed exception; and an arbitrary item list for the at-most-one-terminal
part. -/
theorem c3_witness :
    ((streamLoop true []
        ([QueueItem.event (DeltaEvent.contentDelta ('H' :: 'i' :: '.' :: ' ' :: []))]
          ++ [QueueItem.event DeltaEvent.runCompleted])).filter
        isErrorFrame = []
      ∧ (streamLoop true []
        ([QueueItem.event (DeltaEvent.contentDelta ('H' :: 'i' :: '.' :: ' ' :: []))]
          ++ [QueueItem.event DeltaEvent.runCompleted])).filter
        isDoneFrame = [OutputFrame.done]
      ∧ (streamLoop true []
        ([QueueItem.event (DeltaEvent.contentDelta ('H' :: 'i' :: '.' :: ' ' :: []))]
          ++ [QueueItem.event DeltaEvent.runCompleted])).getLast?
        = some OutputFrame.done)
    ∧ ((streamLoop true []
        ([QueueItem.event (DeltaEvent.contentDelta ('H' :: 'i' :: '.' :: ' ' :: []))]
          ++ [QueueItem.event (DeltaEvent.runFailed "boom")])).filter
        isDoneFrame = []
      ∧ (streamLoop true []
        ([QueueItem.event (DeltaEvent.contentDelta ('H' :: 'i' :: '.' :: ' ' :: []))]
          ++ [QueueItem.event (DeltaEvent.runFailed "boom")])).filter
        isErrorFrame = [OutputFrame.errorFrame "boom"]
      ∧ (streamLoop true []
        ([QueueItem.event (DeltaEvent.contentDelta ('H' :: 'i' :: '.' :: ' ' :: []))]
          ++ [QueueItem.event (DeltaEvent.runFailed "boom")])).getLast?
        = some (OutputFrame.errorFrame "boom"))
    ∧ ((streamLoop true []
        ([QueueItem.event (DeltaEvent.contentDelta ('H' :: 'i' :: '.' :: ' ' :: []))]
          ++ [QueueItem.streamError "lost"])).filter isDoneFrame = []
      ∧ (streamLoop true []
        ([QueueItem.event (DeltaEvent.contentDelta ('H' :: 'i' :: '.' :: ' ' :: []))]
          ++ [QueueItem.streamError "lost"])).filter isErrorFrame
        = [OutputFrame.errorFrame "lost"])
    ∧ (terminalOnlyLast (streamLoop true [' '] [QueueItem.streamDone]) = true
      ∧ ((streamLoop true [' ']
          [QueueItem.streamDone]).filter isTerminalFrame).length ≤ 1) :=
  ⟨c3_terminal_protocol.1 true _ (by decide),
   c3_terminal_protocol.2.1 true _ "boom" (by decide),
   c3_terminal_protocol.2.2.1 true _ "lost" (by decide),
   c3_terminal_protocol.2.2.2 true [' '] [QueueItem.streamDone]⟩

/-- Claim C4: a collaborator response that parses as structured data but has
no `raw_scores` key makes `score_interview` fail with the typed structured
error (the HTTP 500 raised when the `KeyError` for `raw_scores` is caught) —
it does not return a report, so nothing is zero-filled, and no exception
escapes. -/
theorem c4_missing_raw_scores (d : ScoreData) (h : d.raw_scores = none) :
    score_interview true (.jsonData d)
      = .error (.httpError 500 "Failed to score interview: raw_scores") := by
  simp [score_interview, h]

/-- Claim C4, witness: the theorem evaluated on the concrete all-absent
response. -/
theorem c4_witness :
    scoreDataAllNone.raw_scores = none
    ∧ score_interview true (.jsonData scoreDataAllNone)
      = .error (.httpError 500 "Failed to score interview: raw_scores") :=
  ⟨rfl, c4_missing_raw_scores scoreDataAllNone rfl⟩

/-- Claim C5, counterexample: for the structured response `c5Data` with
`pre_deduction_total = 20` and deductions summing to `-40`, but an upstream
`final_score = -20` and `tier = "Strong"`, the engine returns `-20` and
`"Strong"` — not the claimed clamped `0` and `"NotReady"`.  The engine
neither clamps nor maps tiers. -/
theorem c5_counterexample :
    (score_interview true (.jsonData c5Data)).map
        (fun r => (r.final_score, r.tier)) = .ok (-20, "Strong")
    ∧ ((c5Data.deductions.getD []).map Deduction.points).sum = -40
    ∧ (-20 : ℚ) ≠ 0
    ∧ "Strong" ≠ "NotReady" :=
  ⟨rfl, by decide, by decide, by decide⟩

/-- Claim C5, amended: for every scoring response with
`pre_deduction_total = 20` and deductions summing to `-40` that the engine
accepts, the returned `finalScore` and `tier` are exactly the collaborator's
`final_score` (0 when absent) and `tier` ("Developing" when absent); the
engine applies no clamping to `[0, 100]` and no threshold-based tier
mapping. -/
theorem c5_amended (k : Bool) (d : ScoreData) (r : ScoreInterviewResponse)
    (h : score_interview k (.jsonData d) = .ok r)
    (hpre : d.pre_deduction_total = some 20)
    (hded : ((d.deductions.getD []).map Deduction.points).sum = -40) :
    r.final_score = d.final_score.getD 0 ∧ r.tier = d.tier.getD "Developing" :=
  ⟨(score_interview_ok_elim k d r h).2.2.2.2.1,
   (score_interview_ok_elim k d r h).2.2.2.2.2.1⟩

/-- Claim C5, witness: the amended theorem evaluated on the concrete
response `c5Data`. -/
theorem c5_witness :
    score_interview true (.jsonData c5Data) = .ok c5Response
    ∧ (c5Response.final_score = c5Data.final_score.getD 0
      ∧ c5Response.tier = c5Data.tier.getD "Developing") :=
  ⟨rfl, c5_amended true c5Data c5Response rfl rfl (by decide)⟩

/-- Claim C6, counterexample: the structured response `c6Data` carries a raw
score of 42 (outside 1..5) and weighted points of 999 (outside the 0..5
professionalism range), yet the engine accepts it and returns those values
unchanged: the pydantic models declare plain `int` fields and the endpoint
performs no range validation. -/
theorem c6_counterexample :
    (score_interview true (.jsonData c6Data)).map
        (fun r => r.raw_scores.opening_rapport) = .ok 42
    ∧ (score_interview true (.jsonData c6Data)).map
        (fun r => r.weighted_points.professionalism) = .ok 999
    ∧ ¬ ((1 : Int) ≤ 42 ∧ (42 : Int) ≤ 5)
    ∧ ¬ ((999 : Int) ≤ 5) :=
  ⟨rfl, rfl, by decide, by decide⟩

/-- Claim C6, amended: the engine validates only the structure of the
response (both blocks present with integer-typed fields); every accepted
report returns `rawScores` and `weightedPoints` exactly as the collaborator
supplied them, with no range check against 1..5 or the per-category weight
ranges. -/
theorem c6_amended (k : Bool) (d : ScoreData) (r : ScoreInterviewResponse)
    (h : score_interview k (.jsonData d) = .ok r) :
    d.raw_scores = some r.raw_scores
    ∧ d.weighted_points = some r.weighted_points :=
  ⟨(score_interview_ok_elim k d r h).1,
   (score_interview_ok_elim k d r h).2.1⟩

/-- Claim C6, witness: the amended theorem evaluated on the out-of-range
concrete response `c6Data`. -/
theorem c6_witness :
    score_interview true (.jsonData c6Data) = .ok c6Response
    ∧ (c6Data.raw_scores = some c6Response.raw_scores
      ∧ c6Data.weighted_points = some c6Response.weighted_points) :=
  ⟨rfl, c6_amended true c6Data c6Response rfl⟩

/-- Claim C7: the single delta "Hello, world. How are you?" with sentence
segmentation, followed by run completion, yields exactly the chunks
"Hello, ", "world. ", "How are you?" (the final unterminated chunk emitted
because its `?` is the last character of the buffer), then `Done`. -/
theorem c7_boundary_chunks :
    streamLoop true []
        [QueueItem.event
          (DeltaEvent.contentDelta "Hello, world. How are you?".data),
         QueueItem.event DeltaEvent.runCompleted]
      = [OutputFrame.chunk "Hello, ".data, OutputFrame.chunk "world. ".data,
         OutputFrame.chunk "How are you?".data, OutputFrame.done] := by decide

/-- Claim C8: the single delta "Price is 3.14 dollars" produces no
segmentation boundary at the interior period of "3.14" (it is not followed
by whitespace): no segment is extracted at all, and the whole text is
delivered as one chunk at completion — no split occurs inside the number. -/
theorem c8_decimal_no_split :
    extractCompleteSegments "Price is 3.14 dollars".data = []
    ∧ streamLoop true []
        [QueueItem.event (DeltaEvent.contentDelta "Price is 3.14 dollars".data),
         QueueItem.event DeltaEvent.runCompleted]
      = [OutputFrame.chunk "Price is 3.14 dollars".data, OutputFrame.done] := by
  exact ⟨by decide, by decide⟩

/-- Claim C9: with sentence segmentation and no boundary characters in the
input, (1) a delta that brings the un-emitted buffer over the 30-character
`MAX_BUFFER_SIZE` causes the entire buffer to be flushed as one chunk, and
(2) any boundary-free delta stream totalling more than 30 characters emits
at least one chunk during the delta phase, before any completion event. -/
theorem c9_oversize_flush :
    (∀ (buf d : List Char),
      (∀ c ∈ buf ++ d, isBoundaryChar c = false) →
      MAX_BUFFER_SIZE < (buf ++ d).length →
      streamLoop true buf [QueueItem.event (DeltaEvent.contentDelta d)]
        = [OutputFrame.chunk (buf ++ d)])
    ∧ (∀ deltas : List (List Char),
      (∀ d ∈ deltas, ∀ c ∈ d, isBoundaryChar c = false) →
      MAX_BUFFER_SIZE < deltas.flatten.length →
      ∃ t, OutputFrame.chunk t ∈ streamLoop true []
        (deltas.map (fun d => QueueItem.event (DeltaEvent.contentDelta d)))) := by
  constructor
  · intro buf d hnb hlen
    have hrem : getRemainingBuffer (buf ++ d) = buf ++ d :=
      remLoop_no_boundary (buf ++ d) hnb (buf ++ d).length
    have hseg : extractCompleteSegments (buf ++ d) = [] :=
      extractLoop_no_boundary (buf ++ d) (buf ++ d) 0 0 [] hnb
    rw [streamLoop_delta_true, hrem, hseg, if_pos (by omega)]
    rfl
  · intro deltas hnd hlen
    exact no_boundary_forces_chunk deltas [] hnd (by simp) (by simp [MAX_BUFFER_SIZE])
      (by simpa using hlen)

/-- Claim C9, witness: both parts evaluated on a concrete 31-character
boundary-free delta. -/
theorem c9_witness :
    streamLoop true []
        [QueueItem.event (DeltaEvent.contentDelta (List.replicate 31 'a'))]
      = [OutputFrame.chunk ([] ++ List.replicate 31 'a')]
    ∧ ∃ t, OutputFrame.chunk t ∈ streamLoop true []
        ([List.replicate 31 'a'].map
          (fun d => QueueItem.event (DeltaEvent.contentDelta d))) :=
  ⟨c9_oversize_flush.1 [] (List.replicate 31 'a') (by decide) (by decide),
   c9_oversize_flush.2 [List.replicate 31 'a'] (by decide) (by decide)⟩

/-- Claim C10: any structured response carrying well-formed `raw_scores` and
`weighted_points` is accepted even when every other field is absent; each
missing field is silently replaced by its default — 0, empty list, 0,
"Developing", empty list, empty list, "No detailed feedback available" —
rather than causing a typed failure. -/
theorem c10_defaults (d : ScoreData) (rs : RawScores) (wp : WeightedPoints)
    (h1 : d.raw_scores = some rs) (h2 : d.weighted_points = some wp) :
    score_interview true (.jsonData d)
      = .ok { raw_scores := rs
              weighted_points := wp
              pre_deduction_total := d.pre_deduction_total.getD 0
              deductions := d.deductions.getD []
              final_score := d.final_score.getD 0
              tier := d.tier.getD "Developing"
              strengths := d.strengths.getD []
              coaching_items := d.coaching_items.getD []
              detailed_feedback :=
                d.detailed_feedback.getD "No detailed feedback available" } := by
  simp [score_interview, h1, h2]

/-- Claim C10, witness: the theorem evaluated on the concrete response
`c10Data`, whose optional fields are all absent — every default appears in
the returned report. -/
theorem c10_witness :
    score_interview true (.jsonData c10Data)
      = .ok { raw_scores := rsAll3
              weighted_points := wpAll5
              pre_deduction_total := 0
              deductions := []
              final_score := 0
              tier := "Developing"
              strengths := []
              coaching_items := []
              detailed_feedback := "No detailed feedback available" } :=
  c10_defaults c10Data rsAll3 wpAll5 rfl rfl
